import Mathlib

/-!
Verification of `documentation/set_versions.py`: a shallow embedding of the
script's release-registry parsing, version resolution helpers, replacement
table construction and template rendering, with theorems settling the
specification's claims about them.

Python strings are modelled as Lean `String`s; the Python string methods the
script uses (`strip`, `split(":")[0]`, `startswith`, `replace`, `rsplit`,
`capitalize`, `in`, `lower`, `int(...)`) are given explicit executable
translations below, operating on the underlying character lists.
-/

namespace SetVersions

/-- Python whitespace characters recognised by `str.strip()`:
space, tab, newline, carriage return, vertical tab, form feed. -/
def pyWhitespace (c : Char) : Bool :=
  c = ' ' || c = '\t' || c = '\n' || c = '\r' || c = Char.ofNat 11 || c = Char.ofNat 12

/-- Python `s.strip()`: remove leading and trailing whitespace. -/
def pyStrip (s : String) : String :=
  String.mk (((s.data.dropWhile pyWhitespace).reverse.dropWhile pyWhitespace).reverse)

/-- Python `s.split(":")[0]`: the text before the first colon
(the whole string when it has no colon). -/
def pySplitColonHead (s : String) : String :=
  String.mk (s.data.takeWhile (fun c => c ≠ ':'))

/-- Python `s.startswith(p)`. -/
def pyStartswith (s p : String) : Bool :=
  p.data.isPrefixOf s.data

/-- Python `needle in hay` for strings: substring containment. -/
def pySubstrIn (needle : String) (hay : String) : Bool :=
  go needle.data hay.data
where
  go (n : List Char) : List Char → Bool
    | [] => n.isEmpty
    | c :: t => n.isPrefixOf (c :: t) || go n t

/-- Python `s.lower()` (ASCII-relevant part: the codenames are ASCII). -/
def pyLower (s : String) : String :=
  String.mk (s.data.map Char.toLower)

/-- Python `s.capitalize()`: first character uppercased, the rest lowercased. -/
def pyCapitalize (s : String) : String :=
  match s.data with
  | [] => ""
  | c :: t => String.mk (c.toUpper :: t.map Char.toLower)

/-- Python `s.rsplit(".", 1)[1]`: the text after the last dot;
`none` models the `IndexError` raised when the string has no dot. -/
def pyRsplitDotLast (s : String) : Option String :=
  if s.data.contains '.' then
    some (String.mk ((s.data.reverse.takeWhile (fun c => c ≠ '.')).reverse))
  else
    none

/-- Python `int(s)` restricted to the non-negative decimal numerals the script
ever sorts (`none` models the `ValueError` raised on anything else). -/
def pyIntDigits (s : String) : Option Nat :=
  if s.data ≠ [] ∧ s.data.all Char.isDigit then
    some (s.data.foldl (fun a c => 10 * a + (c.toNat - 48)) 0)
  else
    none

/-- Python `l.index(x)` on a list of strings: position of the first
occurrence, `none` models the `ValueError` when `x` is absent. -/
def pyListIndex : List String → String → Option Nat
  | [], _ => none
  | a :: t, x => if a = x then some 0 else (pyListIndex t x).map (· + 1)

/-- Python `l.remove(x)`: drop the first occurrence of `x`;
`none` models the `ValueError` when `x` is absent. -/
def pyListRemove (l : List String) (x : String) : Option (List String) :=
  if x ∈ l then some (l.erase x) else none

/-- Replace every non-overlapping occurrence of `pat` (non-empty) in the
string, scanning left to right. The fuel argument only makes the recursion
structural; `fuel ≥ s.length` is always enough, since every step consumes at
least one character. -/
def pyReplaceAux (pat rep : List Char) : Nat → List Char → List Char
  | _, [] => []
  | 0, s => s
  | fuel + 1, c :: t =>
    if pat.isPrefixOf (c :: t) then rep ++ pyReplaceAux pat rep fuel ((c :: t).drop pat.length)
    else c :: pyReplaceAux pat rep fuel t

/-- Python `s.replace(pat, rep)`. The empty-pattern case interleaves `rep`
around every character, as Python does; the script never hits it. -/
def pyReplace (s pat rep : String) : String :=
  match pat.data with
  | [] => String.mk (rep.data ++ s.data.flatMap (fun c => c :: rep.data))
  | p :: ps => String.mk (pyReplaceAux (p :: ps) rep.data s.data.length s.data)

/-! ## The release registry (`get_releases`, lines 23-51)

`releases.json` is a JSON array of records; the fields the script reads are
`release_codename`, `series_version`, `status` and `series`. -/

/-- One record of the parsed `releases.json` array. -/
structure Release where
  release_codename : String
  series_version : String
  status : String
  series : String
deriving DecidableEq, Repr

/-- Insertion into an `OrderedDict`: a new key goes to the end, an existing
key keeps its position and gets the new value. -/
def odInsert (m : List (String × String)) (k v : String) : List (String × String) :=
  if m.any (fun p => p.1 = k) then
    m.map (fun p => if p.1 = k then (k, v) else p)
  else
    m ++ [(k, v)]

/-- The state built up by the loop of `get_releases`:
`(release_series, activereleases, devbranch, ltsseries)`. -/
def grStep (acc : List (String × String) × List String × String × List String)
    (r : Release) : List (String × String) × List String × String × List String :=
  let codename := pyLower r.release_codename
  let rs := odInsert acc.1 codename r.series_version
  let acts := if r.series = "current" then acc.2.1 ++ [codename] else acc.2.1
  let dev := if r.status = "Active Development" then codename else acc.2.2.1
  let lts := if pySubstrIn "LTS until" r.status then acc.2.2.2 ++ [codename] else acc.2.2.2
  (rs, acts, dev, lts)

/-- `get_releases` (lines 23-51): classify every record, then remove the
active-development codename from the active list.  Returns
`(activereleases, devbranch, ltsseries, release_series)`; `none` models the
`ValueError` that `activereleases.remove(devbranch)` raises when the
development codename is not in the list. -/
def get_releases (releases : List Release) :
    Option (List String × String × List String × List (String × String)) :=
  let st := releases.foldl grStep ([], [], "", [])
  match pyListRemove st.2.1 st.2.2.1 with
  | some acts => some (acts, st.2.2.1, st.2.2.2, st.1)
  | none => none

/-! ## Branch best-guess heuristic (lines 139-155)

When the checkout is not on a known branch, the script counts the commits
each candidate branch is ahead of `HEAD` (`git log HEAD..origin/<b>`) and
keeps the first candidate with a strictly smaller count.  `counts` abstracts
the source-control query; candidates are the registry codenames in order,
then `"master"`. -/

/-- Python truthiness of the `possible_branch` variable: falsy when it is
still `None` or holds the empty string. -/
def pyFalsyOptStr : Option String → Bool
  | none => true
  | some s => s = ""

/-- The loop of lines 141-150, state `(possible_branch, branch_count)`:
take the candidate when `not possible_branch or count < branch_count`. -/
def possible_branch_loop (counts : String → Nat) :
    Option String × Nat → List String → Option String × Nat
  | acc, [] => acc
  | acc, b :: bs =>
    let count := counts b
    if pyFalsyOptStr acc.1 || count < acc.2 then
      possible_branch_loop counts (some b, count) bs
    else
      possible_branch_loop counts acc bs

/-- Lines 139-155: run the loop over the registry codenames then `"master"`,
and fall back to `"master"` when `possible_branch` ends up falsy. -/
def bestGuessBranch (counts : String → Nat) (seriesNames : List String) : String :=
  match (possible_branch_loop counts (none, 0) (seriesNames ++ ["master"])).1 with
  | some b => if b = "" then "master" else b
  | none => "master"

/-! ## Derived fields (lines 181-240)

`previousseries`, `lastlts`, `latesttag`, `distro`, the `replacements`
table and the conditional `POKYVERSION` entry.  Each computation that can
raise in Python (`list.index`, `KeyError`, `IndexError`, a `NameError` on
`latesttag`) is `Option`-valued. -/

/-- A Python value that is either a string or a list of strings: the
`lastlts` variable has type `list` on the main path but type `str` after the
`or "dunfell"` fallback. -/
inductive PyStrOrList where
  | str (s : String)
  | list (l : List String)
deriving DecidableEq, Repr

/-- Python `v[0]` on a string-or-list value: the first element of a list, or
the first character (as a one-character string) of a string.  `none` models
the `IndexError` on an empty value. -/
def pySubscriptZero : PyStrOrList → Option String
  | .str s => s.data.head?.map (fun c => String.mk [c])
  | .list l => l.head?

/-- Lines 181-182: `previousseries = series[series.index(ourseries)+1:] or [""]`.
The registry keys after the resolved series, or `[""]`. -/
def previousseriesOf (seriesNames : List String) (ourseries : String) :
    Option (List String) :=
  match pyListIndex seriesNames ourseries with
  | none => none
  | some i =>
    let rest := seriesNames.drop (i + 1)
    some (if rest = [] then [""] else rest)

/-- Line 183: `lastlts = [k for k in previousseries if k in ltsseries] or "dunfell"`.
Note the fallback is the *string* `"dunfell"`, not a one-element list. -/
def lastltsOf (previousseries ltsseries : List String) : PyStrOrList :=
  let l := previousseries.filter (fun k => k ∈ ltsseries)
  if l = [] then .str "dunfell" else .list l

/-- The `DISTRO_NAME_NO_CAP_LTS` value, `lastlts[0]` (line 228), from the
registry key order, the resolved series and the LTS codenames. -/
def lastltsRepl (seriesNames : List String) (ourseries : String)
    (ltsseries : List String) : Option String :=
  match previousseriesOf seriesNames ourseries with
  | none => none
  | some prev => pySubscriptZero (lastltsOf prev ltsseries)

/-- The `DISTRO_NAME_NO_CAP_MINUS_ONE` value, `previousseries[0]` (line 227). -/
def previousseriesRepl (seriesNames : List String) (ourseries : String) :
    Option String :=
  match previousseriesOf seriesNames ourseries with
  | none => none
  | some prev => prev.head?

/-- Lines 185-194: strip the `yocto-` prefix from the latest release tag
found by `git describe`, falling back to the computed version when no tag
was found.  `none` models the `NameError` left behind when the tag does not
start with `yocto-`. -/
def latesttagOf (latestreltag ourversion : String) : Option String :=
  if latestreltag ≠ "" then
    if pyStartswith latestreltag "yocto-" then
      some (String.mk (latestreltag.data.drop 6))
    else
      none
  else
    some ourversion

/-- Everything the script has resolved before line 181: the registry
(`release_series` in order, `devbranch`, `ltsseries`) and the version
resolution results (`ourversion`, `ourseries`, `bitbakeversion`,
`is_branch_tip`), plus the `git describe` answer `latestreltag`. -/
structure Ctx where
  release_series : List (String × String)
  devbranch : String
  ltsseries : List String
  ourversion : String
  ourseries : String
  bitbakeversion : String
  is_branch_tip : Bool
  latestreltag : String

/-- Lines 207-217: the distribution version.  `ourversion`, except that a
branch tip takes the latest tag and `dev`/`next` take the development
series' version from the registry (`none` models the `KeyError`). -/
def distroOf (ctx : Ctx) : Option String :=
  match latesttagOf ctx.latestreltag ctx.ourversion with
  | none => none
  | some latesttag =>
    if ctx.is_branch_tip then some latesttag
    else if ctx.ourversion = "dev" ∨ ctx.ourversion = "next" then
      ctx.release_series.lookup ctx.devbranch
    else
      some ctx.ourversion

/-- Lines 87-92: the poky version mapping (3.4 onwards has none). -/
def poky_mapping : List (String × String) :=
  [("3.4", "26.0"), ("3.3", "25.0"), ("3.2", "24.0"), ("3.1", "23.0")]

/-- Lines 234-240: the optional `POKYVERSION` entry.  When the resolved
series' version is in `poky_mapping`, append the point-release component of
`ourversion` (or `.0` when `ourversion` is exactly the series version).
`none` models the `IndexError` of `rsplit` on a dotless version. -/
def pokyAddition (seriesversion ourversion : String) :
    Option (List (String × String)) :=
  match poky_mapping.lookup seriesversion with
  | none => some []
  | some base =>
    if ourversion ≠ seriesversion then
      match pyRsplitDotLast ourversion with
      | some pt => some [("POKYVERSION", base ++ "." ++ pt)]
      | none => none
    else
      some [("POKYVERSION", base ++ ".0")]

/-- Lines 181-240: the `replacements` table, in the order the script builds
it.  `none` models any of the raised exceptions on the way. -/
def buildReplacements (ctx : Ctx) : Option (List (String × String)) := do
  let seriesNames := ctx.release_series.map Prod.fst
  let prev ← previousseriesRepl seriesNames ctx.ourseries
  let lts ← lastltsRepl seriesNames ctx.ourseries ctx.ltsseries
  let latesttag ← latesttagOf ctx.latestreltag ctx.ourversion
  let distro ← distroOf ctx
  let seriesversion ← ctx.release_series.lookup ctx.ourseries
  let poky ← pokyAddition seriesversion ctx.ourversion
  return [("DISTRO", distro),
          ("DISTRO_LATEST_TAG", latesttag),
          ("DISTRO_RELEASE_SERIES", seriesversion),
          ("DISTRO_NAME_NO_CAP", ctx.ourseries),
          ("DISTRO_NAME", pyCapitalize ctx.ourseries),
          ("DISTRO_NAME_NO_CAP_MINUS_ONE", prev),
          ("DISTRO_NAME_NO_CAP_LTS", lts),
          ("YOCTO_DOC_VERSION", ctx.ourversion),
          ("DOCCONF_VERSION", ctx.ourversion),
          ("BITBAKE_SERIES", ctx.bitbakeversion)] ++ poky

/-! ## Template rendering of `poky.yaml` (lines 242-253) -/

/-- The loop body of lines 245-251 for one input line: when the text before
the first colon, stripped, is a key of the table, emit
`<key> : "<value>"` and a newline; otherwise copy the line through. -/
def renderPoky (repl : List (String × String)) (lines : List String) : String :=
  lines.foldl (fun acc line =>
    acc ++ (let k := pyStrip (pySplitColonHead line)
            match repl.lookup k with
            | some v => k ++ " : \"" ++ v ++ "\"\n"
            | none => line)) ""

/-! ## `releases.rst` sections (lines 316-326 and 347-349) -/

/-- The per-tag test of lines 324 and 348: a prefix-stripped tag belongs to
a series section when it equals the series version or extends it after a
dot. -/
def tagMatchesSeries (seriesversion tag : String) : Bool :=
  tag = seriesversion || pyStartswith tag (seriesversion ++ ".")

/-- The tags listed in a series section, in tag order. -/
def sectionReleases (seriesversion : String) (tags : List String) : List String :=
  tags.filter (tagMatchesSeries seriesversion)

/-- The bullet lines written for a series section (lines 325 and 349). -/
def sectionBullets (seriesversion : String) (tags : List String) : List String :=
  (sectionReleases seriesversion tags).map
    (fun tag => "- :yocto_docs:`" ++ tag ++ " Documentation </" ++ tag ++ ">`\n")

/-! ## `get_latest_tag` (lines 255-272) -/

/-- The comprehension of lines 262-264: strip `yocto-<version>.` from a tag
(leaving the point-release numeral), then turn a bare `yocto-<version>` tag
into `"0"`. -/
def branchVersionOf (seriesversion tag : String) : String :=
  pyReplace (pyReplace tag ("yocto-" ++ seriesversion ++ ".") "")
    ("yocto-" ++ seriesversion) "0"

/-- `get_latest_tag` (lines 255-272) for a branch with registry series
version `seriesversion`, over the tags `git tag --list` returned: map the
tags to point numerals, sort numerically (`sorted(..., key=int)`, a stable
sort modelled by insertion sort on the parsed keys), and extend the series
version with the greatest numeral unless it is `"0"`.  `none` models the
`ValueError` of `int()` on a non-numeral. -/
def get_latest_tag (seriesversion : String) (tags : List String) : Option String :=
  let branch_versions := tags.map (branchVersionOf seriesversion)
  if branch_versions.all (fun v => (pyIntDigits v).isSome) then
    let sorted := branch_versions.insertionSort
      (fun a b => (pyIntDigits a).getD 0 ≤ (pyIntDigits b).getD 0)
    match sorted.getLast? with
    | none => some ""
    | some last =>
      some (if last ≠ "0" then seriesversion ++ "." ++ last else seriesversion)
  else
    none

/-- The shape of the tags `git tag --list yocto-<series>*` returns for a
well-formed branch history: the bare series tag `yocto-S` for `none`, a point
release tag `yocto-S.d` for `some d` (`d` a decimal numeral). -/
def tagOfPoint (S : String) : Option String → String
  | none => "yocto-" ++ S
  | some d => "yocto-" ++ S ++ "." ++ d

/-! ## The fatal environment checks (lines 102-114)

The script's prelude: it must run inside a source-control checkout and the
release tag of the first active series must be present locally; only then
does any rendering run and any output file get written.  The outcome is the
list of `(path, content)` pairs written, or the fatal diagnostic. -/

/-- The ambient state the prelude consults, and what the later rendering
steps would produce. -/
structure ScriptEnv where
  insideWorkTree : Bool
  releaseTagPresent : Bool
  replacements : List (String × String)
  pokyTemplate : Option (List String)
  switchersOut : String
  releasesOut : String

/-- Lines 102-352 at the level of file writes: the two guarded checks run
first, in order, and each failure exits with its diagnostic before anything
is written; otherwise `poky.yaml` (only when its template exists),
`switchers.js` and `releases.rst` are written. -/
def scriptOutputs (env : ScriptEnv) : Except String (List (String × String)) :=
  if env.insideWorkTree = false then
    .error ("Building yocto-docs must be done from its Git repository.\n" ++
            "Clone the documentation repository with the following command:\n" ++
            "git clone https://git.yoctoproject.org/yocto-docs ")
  else if env.releaseTagPresent = false then
    .error "Please run \x27git fetch --tags\x27 before building the documentation"
  else
    .ok ((match env.pokyTemplate with
          | some lines => [("poky.yaml", renderPoky env.replacements lines)]
          | none => []) ++
         [("sphinx-static/switchers.js", env.switchersOut),
          ("releases.rst", env.releasesOut)])

/-! ## Theorems settling the claims -/

/-- The `activereleases` accumulator of the `get_releases` loop collects the
lowered codenames of the `"current"`-flagged records, in order. -/
theorem foldl_grStep_acts (rs : List Release)
    (acc : List (String × String) × List String × String × List String) :
    (rs.foldl grStep acc).2.1 =
      acc.2.1 ++ (rs.filter (fun r => r.series = "current")).map
        (fun r => pyLower r.release_codename) := by
  induction rs generalizing acc with
  | nil => simp
  | cons r t ih =>
    rw [List.foldl_cons, ih]
    by_cases h : r.series = "current" <;> simp [grStep, h, List.filter_cons]

/-- The `devbranch` accumulator of the `get_releases` loop is the lowered
codename of the last `"Active Development"` record (or the start value when
there is none). -/
theorem foldl_grStep_dev (rs : List Release)
    (acc : List (String × String) × List String × String × List String) :
    (rs.foldl grStep acc).2.2.1 =
      ((rs.filter (fun r => r.status = "Active Development")).map
        (fun r => pyLower r.release_codename)).foldl (fun _ c => c) acc.2.2.1 := by
  induction rs generalizing acc with
  | nil => simp
  | cons r t ih =>
    rw [List.foldl_cons, ih]
    by_cases h : r.status = "Active Development" <;> simp [grStep, h, List.filter_cons]

/-- Claim C1, counterexample: when the single `"Active Development"` record
is not itself flagged `series = "current"`, `get_releases` does not return
an active-series list at all — `activereleases.remove(devbranch)` raises
`ValueError` (modelled by `none`), instead of the claimed list. -/
theorem c1_nonactive_dev_counterexample :
    get_releases [⟨"alpha", "1.0", "Active Development", "upcoming"⟩] = none := rfl

/-- Claim C1 (amended): for a registry whose single `"Active Development"`
record is also flagged `"current"`, and whose lowered codenames are
distinct, `get_releases` returns the development codename and an
active-series list that contains each non-development `"current"`-flagged
codename exactly once and nothing else. -/
theorem c1_active_series (rs : List Release) (rdev : Release)
    (h1 : rs.filter (fun r => r.status = "Active Development") = [rdev])
    (h2 : rdev.series = "current")
    (h3 : (rs.map (fun r => pyLower r.release_codename)).Nodup) :
    ∃ acts lts sm,
      get_releases rs = some (acts, pyLower rdev.release_codename, lts, sm) ∧
      ∀ c, acts.count c =
        if c ≠ pyLower rdev.release_codename ∧
            c ∈ (rs.filter (fun r => r.series = "current")).map
              (fun r => pyLower r.release_codename)
        then 1 else 0 := by
  have hacts := foldl_grStep_acts rs ([], [], "", [])
  have hdev := foldl_grStep_dev rs ([], [], "", [])
  rw [h1] at hdev
  simp only [List.map_cons, List.map_nil, List.foldl_cons, List.foldl_nil,
    List.nil_append] at hacts hdev
  set cur := (rs.filter (fun r => r.series = "current")).map
    (fun r => pyLower r.release_codename) with hcur
  set dev := pyLower rdev.release_codename with hdevdef
  have hrdev_mem : rdev ∈ rs := by
    have : rdev ∈ rs.filter (fun r => r.status = "Active Development") := by
      rw [h1]; exact List.mem_singleton_self _
    exact List.mem_of_mem_filter this
  have hdevcur : dev ∈ cur := by
    refine List.mem_map_of_mem _ (List.mem_filter.mpr ⟨hrdev_mem, ?_⟩)
    simp [h2]
  have hnodup : cur.Nodup := by
    refine h3.sublist ?_
    exact (List.filter_sublist rs).map _
  refine ⟨cur.erase dev, (rs.foldl grStep ([], [], "", [])).2.2.2,
    (rs.foldl grStep ([], [], "", [])).1, ?_, ?_⟩
  · rw [get_releases, pyListRemove]
    simp only [hacts, hdev, hdevcur, if_pos]
  · intro c
    by_cases hc : c = dev
    · subst hc
      rw [List.count_erase_self, List.count_eq_one_of_mem hnodup hdevcur]
      simp
    · rw [List.count_erase_of_ne hc]
      by_cases hm : c ∈ cur
      · rw [List.count_eq_one_of_mem hnodup hm, if_pos ⟨hc, hm⟩]
      · rw [List.count_eq_zero_of_not_mem hm, if_neg (fun h => hm h.2)]

/-- Claim C1 witness: a concrete three-entry registry with the development
series flagged current, one further current series and one LTS-only series. -/
theorem c1_active_series_witness :
    ∃ acts lts sm,
      get_releases
        [⟨"Whinlatter", "5.3", "Active Development", "current"⟩,
         ⟨"Walnascar", "5.2", "Supported", "current"⟩,
         ⟨"Scarthgap", "5.0", "LTS until Apr 2028", "x"⟩] =
        some (acts, "whinlatter", lts, sm) ∧
      ∀ c, acts.count c =
        if c ≠ "whinlatter" ∧
            c ∈ (([⟨"Whinlatter", "5.3", "Active Development", "current"⟩,
                   ⟨"Walnascar", "5.2", "Supported", "current"⟩,
                   ⟨"Scarthgap", "5.0", "LTS until Apr 2028", "x"⟩] : List Release).filter
                  (fun r => r.series = "current")).map
                  (fun r => pyLower r.release_codename)
        then 1 else 0 :=
  c1_active_series
    [⟨"Whinlatter", "5.3", "Active Development", "current"⟩,
     ⟨"Walnascar", "5.2", "Supported", "current"⟩,
     ⟨"Scarthgap", "5.0", "LTS until Apr 2028", "x"⟩]
    ⟨"Whinlatter", "5.3", "Active Development", "current"⟩
    (by decide) rfl (by decide)

/-- `list.index` finds the position of an element of a duplicate-free list. -/
theorem pyListIndex_get : ∀ (ks : List String), ks.Nodup → ∀ (i : Fin ks.length),
    pyListIndex ks (ks.get i) = some i.1
  | [], _, i => absurd i.2 (Nat.not_lt_zero _)
  | _ :: _, _, ⟨0, _⟩ => by simp [pyListIndex]
  | a :: t, hnd, ⟨j + 1, hj⟩ => by
    have hat : a ∉ t := (List.nodup_cons.mp hnd).1
    have hget : (a :: t).get ⟨j + 1, hj⟩ = t.get ⟨j, Nat.lt_of_succ_lt_succ hj⟩ := rfl
    have hne : ¬a = t.get ⟨j, Nat.lt_of_succ_lt_succ hj⟩ :=
      fun h => hat (h ▸ List.get_mem t _ _)
    rw [hget, pyListIndex, if_neg hne,
      pyListIndex_get t (List.nodup_cons.mp hnd).2 ⟨j, Nat.lt_of_succ_lt_succ hj⟩]
    rfl

/-- Claim C7: for a resolved series present at position `i` of the registry
order, the `DISTRO_NAME_NO_CAP_MINUS_ONE` replacement is the codename at the
next position, and the empty string when the resolved series is last. -/
theorem c7_previous_series (ks : List String) (our : String) (hnd : ks.Nodup)
    (i : Fin ks.length) (hi : ks.get i = our) :
    previousseriesRepl ks our = some (ks.getD (i.1 + 1) "") := by
  subst hi
  rw [previousseriesRepl, previousseriesOf, pyListIndex_get ks hnd i]
  dsimp only
  by_cases h : ks.drop (i.1 + 1) = []
  · rw [List.drop_eq_nil_iff] at h
    rw [if_pos (List.drop_eq_nil_iff.mpr h), List.getD_eq_getElem?_getD,
      List.getElem?_eq_none h]
    rfl
  · have hlt : i.1 + 1 < ks.length := by
      rw [List.drop_eq_nil_iff] at h
      omega
    simp only [if_neg h, List.getD_eq_getElem?_getD]
    rw [List.head?_drop, (List.getElem?_eq_some_getElem_iff ks _ hlt).mpr trivial]
    rfl

/-- Claim C7 witness: in registry order `["whinlatter", "walnascar",
"scarthgap"]` the series preceding `whinlatter` is `walnascar`, and
`scarthgap` (the last entry) has none. -/
theorem c7_previous_series_witness :
    previousseriesRepl ["whinlatter", "walnascar", "scarthgap"] "whinlatter" =
      some "walnascar" ∧
    previousseriesRepl ["whinlatter", "walnascar", "scarthgap"] "scarthgap" =
      some "" :=
  ⟨c7_previous_series ["whinlatter", "walnascar", "scarthgap"] "whinlatter"
      (by decide) ⟨0, by decide⟩ rfl,
   c7_previous_series ["whinlatter", "walnascar", "scarthgap"] "scarthgap"
      (by decide) ⟨2, by decide⟩ rfl⟩

/-- Claim C2 (code bug): the fallback of line 183 is the *string*
`"dunfell"`, so `lastlts[0]` on line 228 takes its first character.  When no
LTS series follows the resolved series in registry order — here the registry
order is `["dunfell", "zeus"]`, the resolved series is `dunfell` and no
series is LTS-flagged — the `DISTRO_NAME_NO_CAP_LTS` replacement is the
one-character string `"d"`, not the legacy codename `"dunfell"` the
fallback plainly intends (compare the `or [""]` list fallback on line 182). -/
theorem c2_lastlts_fallback_bug :
    lastltsRepl ["dunfell", "zeus"] "dunfell" [] = some "d" ∧
    buildReplacements
      { release_series := [("dunfell", "3.1"), ("zeus", "3.0")]
        devbranch := "dunfell"
        ltsseries := []
        ourversion := "3.1.33"
        ourseries := "dunfell"
        bitbakeversion := "1.46"
        is_branch_tip := false
        latestreltag := "yocto-3.1.33" } =
      some [("DISTRO", "3.1.33"), ("DISTRO_LATEST_TAG", "3.1.33"),
            ("DISTRO_RELEASE_SERIES", "3.1"), ("DISTRO_NAME_NO_CAP", "dunfell"),
            ("DISTRO_NAME", "Dunfell"), ("DISTRO_NAME_NO_CAP_MINUS_ONE", "zeus"),
            ("DISTRO_NAME_NO_CAP_LTS", "d"), ("YOCTO_DOC_VERSION", "3.1.33"),
            ("DOCCONF_VERSION", "3.1.33"), ("BITBAKE_SERIES", "1.46"),
            ("POKYVERSION", "23.0.33")] ∧
    ("d" : String) ≠ "dunfell" := by
  refine ⟨rfl, rfl, by decide⟩

/-- Claim C4: the `DISTRO` replacement is the resolved version, except that
at a branch tip it is the latest release tag with the `yocto-` prefix
stripped (taking priority), and on `dev`/`next` it is the registry's series
version for the active-development series. -/
theorem c4_distro_substitution (ctx : Ctx) (repl : List (String × String))
    (dv : String)
    (hb : buildReplacements ctx = some repl)
    (h1 : pyStartswith ctx.latestreltag "yocto-" = true)
    (h2 : ctx.release_series.lookup ctx.devbranch = some dv) :
    repl.lookup "DISTRO" =
      some (if ctx.is_branch_tip then String.mk (ctx.latestreltag.data.drop 6)
            else if ctx.ourversion = "dev" ∨ ctx.ourversion = "next" then dv
            else ctx.ourversion) := by
  have hne : ctx.latestreltag ≠ "" := by
    intro he
    rw [he] at h1
    exact absurd h1 (by decide)
  have hX : distroOf ctx =
      some (if ctx.is_branch_tip then String.mk (ctx.latestreltag.data.drop 6)
            else if ctx.ourversion = "dev" ∨ ctx.ourversion = "next" then dv
            else ctx.ourversion) := by
    rw [distroOf, latesttagOf, if_pos hne, if_pos h1]
    cases ctx.is_branch_tip <;>
      by_cases hv : ctx.ourversion = "dev" ∨ ctx.ourversion = "next" <;>
      simp [hv, h2]
  simp only [buildReplacements, bind, pure, Option.bind_eq_some,
    Option.some.injEq] at hb
  obtain ⟨prev, hprev, lts, hlts, lt, hlt, d, hd, sv, hsv, poky, hpoky, hrepl⟩ := hb
  subst hrepl
  rw [hX] at hd
  obtain rfl := Option.some.inj hd
  rfl

/-- Claim C4 witness: the claim's two examples.  At a branch tip of
`walnascar` with latest tag `yocto-5.2.1` the `DISTRO` value is `5.2.1`;
building `master` (resolved version `dev`) with development series version
`5.3` it is `5.3`. -/
theorem c4_distro_substitution_witness :
    List.lookup "DISTRO"
      [("DISTRO", "5.2.1"), ("DISTRO_LATEST_TAG", "5.2.1"),
       ("DISTRO_RELEASE_SERIES", "5.2"), ("DISTRO_NAME_NO_CAP", "walnascar"),
       ("DISTRO_NAME", "Walnascar"), ("DISTRO_NAME_NO_CAP_MINUS_ONE", "scarthgap"),
       ("DISTRO_NAME_NO_CAP_LTS", "scarthgap"), ("YOCTO_DOC_VERSION", "5.2-tip"),
       ("DOCCONF_VERSION", "5.2-tip"), ("BITBAKE_SERIES", "2.12")] = some "5.2.1" ∧
    List.lookup "DISTRO"
      [("DISTRO", "5.3"), ("DISTRO_LATEST_TAG", "5.2.1"),
       ("DISTRO_RELEASE_SERIES", "5.3"), ("DISTRO_NAME_NO_CAP", "whinlatter"),
       ("DISTRO_NAME", "Whinlatter"), ("DISTRO_NAME_NO_CAP_MINUS_ONE", "walnascar"),
       ("DISTRO_NAME_NO_CAP_LTS", "scarthgap"), ("YOCTO_DOC_VERSION", "dev"),
       ("DOCCONF_VERSION", "dev"), ("BITBAKE_SERIES", "dev")] = some "5.3" :=
  ⟨c4_distro_substitution
      { release_series := [("whinlatter", "5.3"), ("walnascar", "5.2"), ("scarthgap", "5.0")]
        devbranch := "whinlatter"
        ltsseries := ["scarthgap"]
        ourversion := "5.2-tip"
        ourseries := "walnascar"
        bitbakeversion := "2.12"
        is_branch_tip := true
        latestreltag := "yocto-5.2.1" }
      _ "5.3" rfl rfl rfl,
   c4_distro_substitution
      { release_series := [("whinlatter", "5.3"), ("walnascar", "5.2"), ("scarthgap", "5.0")]
        devbranch := "whinlatter"
        ltsseries := ["scarthgap"]
        ourversion := "dev"
        ourseries := "whinlatter"
        bitbakeversion := "dev"
        is_branch_tip := false
        latestreltag := "yocto-5.2.1" }
      _ "5.3" rfl rfl rfl⟩

/-- `str.replace` leaves a string shorter than the pattern unchanged. -/
theorem pyReplaceAux_of_length_lt (pat rep : List Char) :
    ∀ (s : List Char) (fuel : Nat), s.length < pat.length →
      pyReplaceAux pat rep fuel s = s
  | [], fuel, _ => by cases fuel <;> rfl
  | _ :: _, 0, _ => rfl
  | c :: t, fuel + 1, h => by
    have hpre : pat.isPrefixOf (c :: t) = false :=
      Bool.eq_false_iff.mpr (fun hx =>
        absurd (List.isPrefixOf_iff_prefix.mp hx).length_le (by omega))
    rw [pyReplaceAux]
    simp only [hpre, Bool.false_eq_true, if_false]
    rw [pyReplaceAux_of_length_lt pat rep t fuel (by simp at h; omega)]

/-- `str.replace` leaves a string that avoids the pattern's first character
unchanged. -/
theorem pyReplaceAux_of_head_notMem (p : Char) (ps rep : List Char) :
    ∀ (s : List Char) (fuel : Nat), p ∉ s → pyReplaceAux (p :: ps) rep fuel s = s
  | [], fuel, _ => by cases fuel <;> rfl
  | _ :: _, 0, _ => rfl
  | c :: t, fuel + 1, h => by
    have hpc : ¬p = c := fun he => h (he ▸ List.mem_cons_self c t)
    have hpre : (p :: ps).isPrefixOf (c :: t) = false :=
      Bool.eq_false_iff.mpr (fun hx =>
        hpc (List.cons_prefix_cons.mp (List.isPrefixOf_iff_prefix.mp hx)).1)
    rw [pyReplaceAux]
    simp only [hpre, Bool.false_eq_true, if_false]
    rw [pyReplaceAux_of_head_notMem p ps rep t fuel
      (fun hx => h (List.mem_cons_of_mem c hx))]

/-- `str.replace` on a string that is the pattern followed by text free of
the pattern's first character: one substitution at the front. -/
theorem pyReplaceAux_append (p : Char) (ps rep t : List Char) (h : p ∉ t) :
    pyReplaceAux (p :: ps) rep ((p :: ps) ++ t).length ((p :: ps) ++ t) =
      rep ++ t := by
  have hpre : (p :: ps).isPrefixOf ((p :: ps) ++ t) = true :=
    List.isPrefixOf_iff_prefix.mpr ⟨t, rfl⟩
  rw [show ((p :: ps) ++ t : List Char) = p :: (ps ++ t) from rfl] at hpre ⊢
  rw [show (p :: (ps ++ t) : List Char).length = (ps ++ t).length + 1 from rfl]
  rw [pyReplaceAux]
  simp only [hpre, if_true]
  rw [show ((p :: (ps ++ t) : List Char).drop (p :: ps).length) = t by
    rw [show (p :: (ps ++ t) : List Char) = (p :: ps) ++ t from rfl]
    exact List.drop_left (p :: ps) t]
  rw [pyReplaceAux_of_head_notMem p ps rep t _ h]

/-- `pyReplace` through a non-empty pattern, at the character-list level. -/
theorem pyReplace_eq_aux (s pat rep : String) (p : Char) (ps : List Char)
    (hp : pat.data = p :: ps) :
    pyReplace s pat rep =
      String.mk (pyReplaceAux (p :: ps) rep.data s.data.length s.data) := by
  rw [pyReplace.eq_def, hp]

/-- The comprehension value of a bare `yocto-S` tag is `"0"`. -/
theorem branchVersionOf_bare (S : String) :
    branchVersionOf S ("yocto-" ++ S) = "0" := by
  have h1 : ("yocto-" ++ S ++ ".").data = 'y' :: ("octo-".data ++ S.data ++ ['.']) := by
    simp [String.data_append, List.append_assoc]
  have h2 : ("yocto-" ++ S).data = 'y' :: ("octo-".data ++ S.data) := by
    simp [String.data_append]
  have hfst : pyReplace ("yocto-" ++ S) ("yocto-" ++ S ++ ".") "" = "yocto-" ++ S := by
    rw [pyReplace_eq_aux _ _ _ _ _ h1]
    rw [pyReplaceAux_of_length_lt _ _ _ _ (by simp [h2])]
  rw [branchVersionOf, hfst]
  rw [pyReplace_eq_aux _ _ _ _ _ h2]
  have hself := pyReplaceAux_append 'y' ("octo-".data ++ S.data) "0".data []
    (List.not_mem_nil 'y')
  rw [List.append_nil] at hself
  rw [show ("yocto-" ++ S).data.length = ('y' :: ("octo-".data ++ S.data)).length by
    rw [h2]]
  rw [h2, hself]
  rfl

/-- The comprehension value of a point tag `yocto-S.d` is the numeral `d`,
for `d` free of the letter `y`. -/
theorem branchVersionOf_point (S d : String) (hy : 'y' ∉ d.data) :
    branchVersionOf S ("yocto-" ++ S ++ "." ++ d) = d := by
  have h1 : ("yocto-" ++ S ++ ".").data = 'y' :: ("octo-".data ++ S.data ++ ['.']) := by
    simp [String.data_append, List.append_assoc]
  have h2 : ("yocto-" ++ S).data = 'y' :: ("octo-".data ++ S.data) := by
    simp [String.data_append]
  have htag : ("yocto-" ++ S ++ "." ++ d).data =
      ('y' :: ("octo-".data ++ S.data ++ ['.'])) ++ d.data := by
    simp [String.data_append, List.append_assoc]
  have hfst : pyReplace ("yocto-" ++ S ++ "." ++ d) ("yocto-" ++ S ++ ".") "" = d := by
    rw [pyReplace_eq_aux _ _ _ _ _ h1, htag]
    rw [pyReplaceAux_append 'y' ("octo-".data ++ S.data ++ ['.']) "".data d.data hy]
    rfl
  rw [branchVersionOf, hfst]
  rw [pyReplace_eq_aux _ _ _ _ _ h2]
  rw [pyReplaceAux_of_head_notMem 'y' ("octo-".data ++ S.data) "0".data d.data _ hy]

/-- In a list sorted by a numeric key, every element's key is at most the
last element's. -/
theorem sorted_key_le_getLast {α : Type} (key : α → Nat) :
    ∀ (s : List α), List.Sorted (fun a b => key a ≤ key b) s →
      ∀ (h : s ≠ []) (x), x ∈ s → key x ≤ key (s.getLast h)
  | [], _, h, _, _ => absurd rfl h
  | [a], _, _, x, hx => by
    obtain rfl : x = a := by simpa using hx
    exact Nat.le_refl _
  | a :: b :: t, hs, h, x, hx => by
    rw [List.sorted_cons] at hs
    have hb : (b :: t) ≠ [] := List.cons_ne_nil b t
    have hlast : (a :: b :: t).getLast h = (b :: t).getLast hb := List.getLast_cons hb
    rcases List.mem_cons.mp hx with rfl | hx'
    · rw [hlast]
      exact hs.1 _ (List.getLast_mem hb)
    · rw [hlast]
      exact sorted_key_le_getLast key (b :: t) hs.2 hb x hx'

/-- A stable sort by a numeric key ends in an element of maximal key. -/
theorem sorted_getLast_max {α : Type} (key : α → Nat) (l : List α) (hne : l ≠ []) :
    ∃ w, w ∈ l ∧ (∀ x ∈ l, key x ≤ key w) ∧
      (l.insertionSort (fun a b => key a ≤ key b)).getLast? = some w := by
  haveI h1 : IsTotal α (fun a b => key a ≤ key b) := ⟨fun a b => Nat.le_total _ _⟩
  haveI h2 : IsTrans α (fun a b => key a ≤ key b) :=
    ⟨fun _ _ _ hab hbc => Nat.le_trans hab hbc⟩
  have hperm := List.perm_insertionSort (fun a b => key a ≤ key b) l
  have hsorted := List.sorted_insertionSort (fun a b => key a ≤ key b) l
  have hsne : l.insertionSort (fun a b => key a ≤ key b) ≠ [] := by
    intro h0
    rw [h0] at hperm
    exact hne hperm.symm.eq_nil
  refine ⟨(l.insertionSort (fun a b => key a ≤ key b)).getLast hsne, ?_, ?_,
    List.getLast?_eq_getLast _ hsne⟩
  · exact hperm.mem_iff.mp (List.getLast_mem hsne)
  · intro x hx
    exact sorted_key_le_getLast key _ hsorted hsne x (hperm.mem_iff.mpr hx)

/-- Invariant of the best-guess loop: starting from a non-falsy candidate
`p` with its own count, the loop returns the first candidate of `p :: bs`
whose count all earlier candidates strictly exceed and no later candidate
undercuts. -/
theorem possible_branch_loop_spec (counts : String → Nat) :
    ∀ (bs : List String) (p : String), p ≠ "" → (∀ b ∈ bs, b ≠ "") →
    ∃ r l1 l2,
      possible_branch_loop counts (some p, counts p) bs = (some r, counts r) ∧
      p :: bs = l1 ++ r :: l2 ∧
      (∀ b ∈ l1, counts r < counts b) ∧
      (∀ b ∈ l2, counts r ≤ counts b)
  | [], p, _, _ => ⟨p, [], [], rfl, rfl, by simp, by simp⟩
  | b :: t, p, hp, hbs => by
    have hb : b ≠ "" := hbs b (List.mem_cons_self b t)
    have ht : ∀ x ∈ t, x ≠ "" := fun x hx => hbs x (List.mem_cons_of_mem b hx)
    have hfal : pyFalsyOptStr (some p) = false := by simp [pyFalsyOptStr, hp]
    rw [possible_branch_loop]
    by_cases hcmp : counts b < counts p
    · simp only [hfal, Bool.false_or, decide_eq_true hcmp, if_true]
      obtain ⟨r, l1, l2, hline, hsplit, hl1, hl2⟩ :=
        possible_branch_loop_spec counts t b hb ht
      have hrb : counts r ≤ counts b := by
        cases l1 with
        | nil =>
          rw [List.nil_append] at hsplit
          rw [(List.cons.inj hsplit).1]
        | cons x l1x =>
          rw [List.cons_append] at hsplit
          obtain ⟨rfl, -⟩ := List.cons.inj hsplit
          exact le_of_lt (hl1 b (List.mem_cons_self b l1x))
      refine ⟨r, p :: l1, l2, hline, ?_, ?_, hl2⟩
      · rw [List.cons_append]
        exact congrArg (List.cons p) hsplit
      · intro x hx
        rcases List.mem_cons.mp hx with rfl | hx'
        · exact lt_of_le_of_lt hrb hcmp
        · exact hl1 x hx'
    · simp only [hfal, Bool.false_or, decide_eq_false hcmp, if_false]
      obtain ⟨r, l1, l2, hline, hsplit, hl1, hl2⟩ :=
        possible_branch_loop_spec counts t p hp ht
      cases l1 with
      | nil =>
        rw [List.nil_append] at hsplit
        obtain ⟨rfl, rfl⟩ := List.cons.inj hsplit
        refine ⟨p, [], b :: t, hline, rfl, by simp, ?_⟩
        intro x hx
        rcases List.mem_cons.mp hx with rfl | hx'
        · exact Nat.le_of_not_lt hcmp
        · exact hl2 x hx'
      | cons x l1x =>
        rw [List.cons_append] at hsplit
        obtain ⟨rfl, ht'⟩ := List.cons.inj hsplit
        refine ⟨r, p :: b :: l1x, l2, hline, ?_, ?_, hl2⟩
        · rw [List.cons_append, List.cons_append, ht']
        · intro y hy
          have hrp : counts r < counts p := hl1 p (List.mem_cons_self p l1x)
          rcases List.mem_cons.mp hy with rfl | hy'
          · exact hrp
          · rcases List.mem_cons.mp hy' with rfl | hy''
            · exact lt_of_lt_of_le hrp (Nat.le_of_not_lt hcmp)
            · exact hl1 y (List.mem_cons_of_mem p hy'')

/-- Claim C3: over the candidates in registry order followed by trunk, the
best-guess heuristic picks a candidate of minimal ahead-count, the first
among equal minima (all earlier candidates count strictly more, none later
counts less); on counts `{master: 5, seriesA: 3, seriesB: 3}` it picks
`seriesA`. -/
theorem c3_best_guess_first_min (counts : String → Nat) (seriesNames : List String)
    (h : ∀ b ∈ seriesNames ++ ["master"], b ≠ "") :
    (∃ l1 l2,
      seriesNames ++ ["master"] =
        l1 ++ bestGuessBranch counts seriesNames :: l2 ∧
      (∀ b ∈ l1, counts (bestGuessBranch counts seriesNames) < counts b) ∧
      (∀ b ∈ l2, counts (bestGuessBranch counts seriesNames) ≤ counts b)) ∧
    bestGuessBranch
      (fun b => if b = "seriesA" then 3 else if b = "seriesB" then 3 else 5)
      ["seriesA", "seriesB"] = "seriesA" := by
  refine ⟨?_, rfl⟩
  obtain ⟨b0, bs, hsn⟩ : ∃ b0 bs, seriesNames ++ ["master"] = b0 :: bs := by
    cases seriesNames with
    | nil => exact ⟨"master", [], rfl⟩
    | cons a t => exact ⟨a, t ++ ["master"], rfl⟩
  have hb0 : b0 ≠ "" := h b0 (by rw [hsn]; exact List.mem_cons_self b0 bs)
  have hbs : ∀ x ∈ bs, x ≠ "" := fun x hx =>
    h x (by rw [hsn]; exact List.mem_cons_of_mem b0 hx)
  obtain ⟨r, l1, l2, hline, hsplit, hl1, hl2⟩ :=
    possible_branch_loop_spec counts bs b0 hb0 hbs
  have hrmem : r ∈ b0 :: bs := by
    rw [hsplit]
    exact List.mem_append.mpr (Or.inr (List.mem_cons_self r l2))
  have hrne : r ≠ "" := by
    rcases List.mem_cons.mp hrmem with rfl | hr'
    · exact hb0
    · exact hbs r hr'
  have hbg : bestGuessBranch counts seriesNames = r := by
    unfold bestGuessBranch
    rw [hsn, possible_branch_loop]
    simp only [pyFalsyOptStr, Bool.true_or, if_true]
    rw [hline]
    exact if_neg hrne
  rw [hbg, hsn]
  exact ⟨l1, l2, hsplit, hl1, hl2⟩

/-- Claim C3 witness: the claim's concrete instance, counts
`{seriesA: 3, seriesB: 3, master: 5}` in order `[seriesA, seriesB, master]`:
`seriesA` is selected, before it nothing counts less, after it nothing
counts less than 3. -/
theorem c3_best_guess_first_min_witness :
    (∃ l1 l2,
      ["seriesA", "seriesB"] ++ ["master"] =
        l1 ++ bestGuessBranch
          (fun b => if b = "seriesA" then 3 else if b = "seriesB" then 3 else 5)
          ["seriesA", "seriesB"] :: l2 ∧
      (∀ b ∈ l1,
        (fun b => if b = "seriesA" then 3 else if b = "seriesB" then 3 else 5)
          (bestGuessBranch
            (fun b => if b = "seriesA" then 3 else if b = "seriesB" then 3 else 5)
            ["seriesA", "seriesB"]) <
        (fun b => if b = "seriesA" then 3 else if b = "seriesB" then 3 else 5) b) ∧
      (∀ b ∈ l2,
        (fun b => if b = "seriesA" then 3 else if b = "seriesB" then 3 else 5)
          (bestGuessBranch
            (fun b => if b = "seriesA" then 3 else if b = "seriesB" then 3 else 5)
            ["seriesA", "seriesB"]) ≤
        (fun b => if b = "seriesA" then 3 else if b = "seriesB" then 3 else 5) b)) ∧
    bestGuessBranch
      (fun b => if b = "seriesA" then 3 else if b = "seriesB" then 3 else 5)
      ["seriesA", "seriesB"] = "seriesA" :=
  c3_best_guess_first_min
    (fun b => if b = "seriesA" then 3 else if b = "seriesB" then 3 else 5)
    ["seriesA", "seriesB"] (by decide)

/-- Claim C10, counterexample: for the single matching tag `yocto-5.3.0`
(integer point number `0`), the claim as stated demands `5.3.0` — the only
match is not the un-suffixed series tag, and `0` is the numerically greatest
point number — but `get_latest_tag` returns the bare `5.3`: the bare tag and
a `.0` point tag both map to the sort key `"0"`. -/
theorem c10_point_zero_counterexample :
    get_latest_tag "5.3" ["yocto-5.3.0"] = some "5.3" ∧
    ("5.3" : String) ≠ "5.3.0" :=
  ⟨rfl, by decide⟩

/-- Claim C10 (amended): over tags of the form `yocto-S` / `yocto-S.d` with
decimal point numerals `d`, `get_latest_tag` returns `""` for no tags at
all, and otherwise `S ++ "." ++ w` for a numerically maximal point numeral
`w` — except that when that maximum is the numeral `"0"` (the bare tag, or
equally a `.0` point tag) it returns the bare series version `S`. -/
theorem c10_latest_tag (S : String) (ns : List (Option String)) (hne : ns ≠ [])
    (hd : ∀ o ∈ ns, (o.getD "0").data ≠ [] ∧ ∀ c ∈ (o.getD "0").data,
      c.isDigit = true) :
    get_latest_tag S [] = some "" ∧
    ∃ w, w ∈ ns.map (fun o => o.getD "0") ∧
      (∀ x ∈ ns.map (fun o => o.getD "0"),
        (pyIntDigits x).getD 0 ≤ (pyIntDigits w).getD 0) ∧
      get_latest_tag S (ns.map (tagOfPoint S)) =
        some (if w ≠ "0" then S ++ "." ++ w else S) := by
  refine ⟨rfl, ?_⟩
  have hmapped : (ns.map (tagOfPoint S)).map (branchVersionOf S) =
      ns.map (fun o => o.getD "0") := by
    rw [List.map_map]
    refine List.map_congr_left ?_
    intro o ho
    cases o with
    | none => exact branchVersionOf_bare S
    | some d =>
      have hdd := hd (some d) ho
      have hy : 'y' ∉ d.data := fun hmem =>
        absurd (hdd.2 'y' hmem) (by decide)
      exact branchVersionOf_point S d hy
  have hall : (ns.map (fun o => o.getD "0")).all
      (fun v => (pyIntDigits v).isSome) = true := by
    refine List.all_eq_true.mpr ?_
    intro v hv
    obtain ⟨o, ho, rfl⟩ := List.mem_map.mp hv
    have hdd := hd o ho
    rw [pyIntDigits, if_pos ⟨hdd.1, List.all_eq_true.mpr hdd.2⟩]
    rfl
  have hvne : ns.map (fun o => o.getD "0") ≠ [] := by
    intro h0
    exact hne (List.map_eq_nil_iff.mp h0)
  obtain ⟨w, hwmem, hwmax, hwlast⟩ :=
    sorted_getLast_max (fun v => (pyIntDigits v).getD 0)
      (ns.map (fun o => o.getD "0")) hvne
  have hrun : get_latest_tag S (ns.map (tagOfPoint S)) =
      (if (ns.map (fun o => o.getD "0")).all (fun v => (pyIntDigits v).isSome) then
        match ((ns.map (fun o => o.getD "0")).insertionSort
            (fun a b => (pyIntDigits a).getD 0 ≤ (pyIntDigits b).getD 0)).getLast? with
        | none => some ""
        | some last => some (if last ≠ "0" then S ++ "." ++ last else S)
      else none) := by
    unfold get_latest_tag
    rw [hmapped]
  refine ⟨w, hwmem, hwmax, ?_⟩
  rw [hrun, if_pos hall, hwlast]

/-- Claim C10 witness: series version `5.3`, tags `yocto-5.3`, `yocto-5.3.9`
and `yocto-5.3.10`: the numerically (not lexicographically) greatest point
numeral `10` wins. -/
theorem c10_latest_tag_witness :
    get_latest_tag "5.3" [] = some "" ∧
    ∃ w, w ∈ ([none, some "9", some "10"] : List (Option String)).map
        (fun o => o.getD "0") ∧
      (∀ x ∈ ([none, some "9", some "10"] : List (Option String)).map
          (fun o => o.getD "0"),
        (pyIntDigits x).getD 0 ≤ (pyIntDigits w).getD 0) ∧
      get_latest_tag "5.3"
          (([none, some "9", some "10"] : List (Option String)).map
            (tagOfPoint "5.3")) =
        some (if w ≠ "0" then "5.3" ++ "." ++ w else "5.3") :=
  c10_latest_tag "5.3" [none, some "9", some "10"] (by decide) (by decide)

/-- `poky_mapping` has exactly the keys `3.1`-`3.4`. -/
theorem poky_mapping_isSome_iff (sv : String) :
    (poky_mapping.lookup sv).isSome ↔ sv ∈ ["3.1", "3.2", "3.3", "3.4"] := by
  cases h4 : sv == "3.4" <;> cases h3 : sv == "3.3" <;>
    cases h2 : sv == "3.2" <;> cases h1 : sv == "3.1" <;>
    simp only [poky_mapping, List.lookup, h4, h3, h2, h1] <;>
    simp_all [beq_iff_eq, beq_eq_false_iff_ne]

/-- Looking up `POKYVERSION` skips the ten fixed entries of the replacement
table. -/
theorem lookup_pokyversion_skip (d lt sv ns nm prev lts v w bb : String)
    (poky : List (String × String)) :
    List.lookup "POKYVERSION"
      ([("DISTRO", d), ("DISTRO_LATEST_TAG", lt), ("DISTRO_RELEASE_SERIES", sv),
        ("DISTRO_NAME_NO_CAP", ns), ("DISTRO_NAME", nm),
        ("DISTRO_NAME_NO_CAP_MINUS_ONE", prev), ("DISTRO_NAME_NO_CAP_LTS", lts),
        ("YOCTO_DOC_VERSION", v), ("DOCCONF_VERSION", w),
        ("BITBAKE_SERIES", bb)] ++ poky) =
      List.lookup "POKYVERSION" poky := rfl

/-- Claim C9: the replacement table carries a `POKYVERSION` key exactly when
the resolved series' version is one of `3.1`-`3.4`, and its value is then
the mapped poky base version extended with the text after the last dot of
the resolved version, or with `.0` when the resolved version is exactly the
series version. -/
theorem c9_pokyversion (ctx : Ctx) (repl : List (String × String)) (sv : String)
    (hb : buildReplacements ctx = some repl)
    (hsv : ctx.release_series.lookup ctx.ourseries = some sv) :
    ((repl.lookup "POKYVERSION").isSome ↔ sv ∈ ["3.1", "3.2", "3.3", "3.4"]) ∧
    (∀ base, poky_mapping.lookup sv = some base →
      repl.lookup "POKYVERSION" =
        some (if ctx.ourversion = sv then base ++ ".0"
              else base ++ "." ++ (pyRsplitDotLast ctx.ourversion).getD "")) := by
  simp only [buildReplacements, bind, pure, Option.bind_eq_some,
    Option.some.injEq] at hb
  obtain ⟨prev, hprev, lts, hlts, lt, hlt, d, hd, sv', hsv', poky, hpoky, hrepl⟩ := hb
  rw [hsv] at hsv'
  obtain rfl := Option.some.inj hsv'
  subst hrepl
  rw [lookup_pokyversion_skip]
  rw [pokyAddition] at hpoky
  cases hm : poky_mapping.lookup sv with
  | none =>
    rw [hm] at hpoky
    obtain rfl := Option.some.inj hpoky
    refine ⟨?_, ?_⟩
    · rw [← poky_mapping_isSome_iff, hm]
      exact Iff.rfl
    · intro base hbase
      exact absurd hbase (by simp)
  | some base =>
    rw [hm] at hpoky
    by_cases heq : ctx.ourversion = sv
    · simp only [if_neg (not_not_intro heq)] at hpoky
      obtain rfl := Option.some.inj hpoky
      refine ⟨?_, ?_⟩
      · rw [← poky_mapping_isSome_iff, hm]
        exact Iff.rfl
      · intro base' hbase'
        obtain rfl := Option.some.inj hbase'
        rw [if_pos heq]
        rfl
    · simp only [if_pos heq] at hpoky
      cases hpt : pyRsplitDotLast ctx.ourversion with
      | none =>
        rw [hpt] at hpoky
        exact absurd hpoky (by simp)
      | some pt =>
        rw [hpt] at hpoky
        obtain rfl := Option.some.inj hpoky
        refine ⟨?_, ?_⟩
        · rw [← poky_mapping_isSome_iff, hm]
          exact Iff.rfl
        · intro base' hbase'
          obtain rfl := Option.some.inj hbase'
          rw [if_neg heq]
          rfl

/-- Claim C9 witness: series version `3.4`, resolved version `3.4.2` — the
table gains `POKYVERSION = 26.0.2`. -/
theorem c9_pokyversion_witness :
    ((List.lookup "POKYVERSION"
        [("DISTRO", "3.4.2"), ("DISTRO_LATEST_TAG", "3.4.2"),
         ("DISTRO_RELEASE_SERIES", "3.4"), ("DISTRO_NAME_NO_CAP", "walnascar"),
         ("DISTRO_NAME", "Walnascar"), ("DISTRO_NAME_NO_CAP_MINUS_ONE", "styhead"),
         ("DISTRO_NAME_NO_CAP_LTS", "d"), ("YOCTO_DOC_VERSION", "3.4.2"),
         ("DOCCONF_VERSION", "3.4.2"), ("BITBAKE_SERIES", "2.12"),
         ("POKYVERSION", "26.0.2")]).isSome ↔
      ("3.4" : String) ∈ ["3.1", "3.2", "3.3", "3.4"]) ∧
    (∀ base, poky_mapping.lookup "3.4" = some base →
      List.lookup "POKYVERSION"
        [("DISTRO", "3.4.2"), ("DISTRO_LATEST_TAG", "3.4.2"),
         ("DISTRO_RELEASE_SERIES", "3.4"), ("DISTRO_NAME_NO_CAP", "walnascar"),
         ("DISTRO_NAME", "Walnascar"), ("DISTRO_NAME_NO_CAP_MINUS_ONE", "styhead"),
         ("DISTRO_NAME_NO_CAP_LTS", "d"), ("YOCTO_DOC_VERSION", "3.4.2"),
         ("DOCCONF_VERSION", "3.4.2"), ("BITBAKE_SERIES", "2.12"),
         ("POKYVERSION", "26.0.2")] =
        some (if ("3.4.2" : String) = "3.4" then base ++ ".0"
              else base ++ "." ++ (pyRsplitDotLast "3.4.2").getD "")) :=
  c9_pokyversion
    { release_series := [("walnascar", "3.4"), ("styhead", "3.3")]
      devbranch := "walnascar"
      ltsseries := []
      ourversion := "3.4.2"
      ourseries := "walnascar"
      bitbakeversion := "2.12"
      is_branch_tip := false
      latestreltag := "yocto-3.4.2" }
    _ "3.4" rfl rfl

/-- Claim C5, counterexample to the stated biconditional: a line whose
pre-colon key *is* in the replacement table can still be written out
byte-for-byte unchanged, namely when it already has exactly the rewritten
form.  Here the key `DISTRO` is in the table, yet rendering the line
`DISTRO : "5.3"\n` reproduces it exactly. -/
theorem c5_unchanged_despite_known_key :
    renderPoky [("DISTRO", "5.3")] ["DISTRO : \"5.3\"\n"] = "DISTRO : \"5.3\"\n" ∧
    [("DISTRO", "5.3")].lookup (pyStrip (pySplitColonHead "DISTRO : \"5.3\"\n")) ≠
      none := by
  refine ⟨rfl, by decide⟩

/-- Claim C5 (amended): config rendering is line-wise; a line is written
unchanged, byte-for-byte, whenever the text before its first colon, stripped
of surrounding whitespace, is not a key of the replacement table, and when
it is a key the line is rewritten as the key, a colon and the quoted
replacement value (which can coincide with the original line). -/
theorem c5_render_per_line (repl : List (String × String)) (lines : List String) :
    renderPoky repl lines =
      String.join (lines.map (fun line =>
        match repl.lookup (pyStrip (pySplitColonHead line)) with
        | some v => pyStrip (pySplitColonHead line) ++ " : \"" ++ v ++ "\"\n"
        | none => line)) := by
  unfold renderPoky String.join
  rw [List.foldl_map]

/-- Claim C6: a prefix-stripped tag is listed in the section of a series
with version `sv` exactly when it equals `sv` or extends it after a dot; in
particular the `5.3` section lists `5.3` and `5.3.1` but not `5.4`. -/
theorem c6_section_tag_membership :
    (∀ (sv : String) (tags : List String) (t : String),
      t ∈ sectionReleases sv tags ↔
        t ∈ tags ∧ (t = sv ∨ ∃ r : List Char, t.data = sv.data ++ '.' :: r)) ∧
    sectionReleases "5.3" ["5.3", "5.3.1", "5.4"] = ["5.3", "5.3.1"] := by
  constructor
  · intro sv tags t
    rw [sectionReleases, List.mem_filter]
    refine and_congr_right (fun _ => ?_)
    rw [tagMatchesSeries, pyStartswith, Bool.or_eq_true, decide_eq_true_eq,
      List.isPrefixOf_iff_prefix]
    refine or_congr Iff.rfl ?_
    constructor
    · rintro ⟨r, hr⟩
      exact ⟨r, by simpa [String.data_append] using hr.symm⟩
    · rintro ⟨r, hr⟩
      exact ⟨r, by simp [String.data_append, hr]⟩
  · rfl

/-- Claim C8: the script exits fatally in exactly the two guarded
conditions — not inside a source-control checkout (with clone instructions),
or the expected release tag absent locally (telling the user to fetch
tags) — the first check taking priority, and a fatal exit writes no output
file (the result carries no write list). -/
theorem c8_fatal_guards (env : ScriptEnv) :
    ((∃ ws, scriptOutputs env = .ok ws) ↔
      env.insideWorkTree = true ∧ env.releaseTagPresent = true) ∧
    scriptOutputs { env with insideWorkTree := false } =
      .error ("Building yocto-docs must be done from its Git repository.\n" ++
              "Clone the documentation repository with the following command:\n" ++
              "git clone https://git.yoctoproject.org/yocto-docs ") ∧
    scriptOutputs { env with insideWorkTree := true, releaseTagPresent := false } =
      .error "Please run \x27git fetch --tags\x27 before building the documentation" := by
  refine ⟨?_, rfl, rfl⟩
  cases hw : env.insideWorkTree <;> cases ht : env.releaseTagPresent <;>
    simp [scriptOutputs, hw, ht]

end SetVersions
